import Mathlib

/-!
Shallow embedding of src/core/unet.py (ComfyLatentTools).

The file models the three components of the module:
* the identity attention override (pag_perturbed_attention),
* the blurred attention wrapper (seg_attention_wrapper / seg_perturbed_attention),
* the block-selector parser (parse_unet_blocks) and its run-length grouping
  helper (group_blocks).

Python strings are modelled as lists of characters, tensors as flat index
functions with explicit shape metadata (matching torch's row-major storage
through permute/reshape), floats as exact rationals, and fallible code as
Except values whose error constructors name the Python exception class that
the corresponding statement raises.
-/

/-- Whitespace test used by Python str.strip (ASCII whitespace characters). -/
def pyIsSpace (c : Char) : Bool :=
  c == ' ' || c == '\t' || c == '\n' || c == '\r' || c == '\x0b' || c == '\x0c'

/-- Model of Python str.strip: drop leading and trailing whitespace. -/
def pyStrip (l : List Char) : List Char :=
  ((l.dropWhile pyIsSpace).reverse.dropWhile pyIsSpace).reverse

/-- Model of Python str.split(sep) for a one-character separator: no collapsing
of adjacent separators, and the empty string splits to one empty field. -/
def splitOnChar (c : Char) : List Char → List (List Char)
  | [] => [[]]
  | x :: xs =>
    if x = c then [] :: splitOnChar c xs
    else
      match splitOnChar c xs with
      | [] => [[x]]
      | t :: ts => (x :: t) :: ts

/-- Value of a nonempty all-digit character list, none otherwise. -/
def digitsVal? (l : List Char) : Option Nat :=
  if l ≠ [] ∧ l.all Char.isDigit then
    some (l.foldl (fun a c => a * 10 + (c.toNat - 48)) 0)
  else none

/-- Model of Python int(str): surrounding whitespace stripped, an optional
sign, then a nonempty digit string; none models ValueError. -/
def pyInt? (l : List Char) : Option Int :=
  match pyStrip l with
  | '+' :: ds => (digitsVal? ds).map Int.ofNat
  | '-' :: ds => (digitsVal? ds).map (fun n => -(n : Int))
  | ds => (digitsVal? ds).map Int.ofNat

/-- Model of Python list indexing lst[i]: negative indices wrap once from the
end, out-of-range access is none (IndexError). -/
def pyGet? {α : Type} (l : List α) (i : Int) : Option α :=
  let j : Int := if i < 0 then i + l.length else i
  if 0 ≤ j then l.get? j.toNat else none

/-- Python exception classes that parse_unet_blocks can raise. -/
inductive PyErr : Type
  | indexError
  | nameError
  | valueError
  | assertionError
  deriving DecidableEq, Repr

/-- Run-length groups of self-attention block indices for the three layer
groups, as produced by step 1 and 2 of parse_unet_blocks. The enumeration of
the live model's submodules is external to the repository; the parser only
consumes the three grouped lists. -/
structure Groups : Type where
  input : List (Int × Nat)
  middle : List (Int × Nat)
  output : List (Int × Nat)

/-- Embedding of group_blocks (src/core/unet.py lines 142-143): run-length
encoding via itertools.groupby, merging consecutive equal values into
(value, count) pairs. -/
def groupBlocks : List Int → List (Int × Nat)
  | [] => []
  | x :: xs =>
    match groupBlocks xs with
    | [] => [(x, 1)]
    | (y, n) :: rest => if x = y then (y, n + 1) :: rest else (x, 1) :: (y, n) :: rest

/-- Embedding of the match statement on the token's first character
(src/core/unet.py lines 153-159). A Python match with no default case leaves
the bindings of layer and cur_blocks unchanged, so the incoming state is
returned for characters outside d, m, u. -/
def selectGroup (g : Groups) (c : Char) (st : Option (String × List (Int × Nat))) :
    Option (String × List (Int × Nat)) :=
  if c = 'd' then some ("input", g.input)
  else if c = 'm' then some ("middle", g.middle)
  else if c = 'u' then some ("output", g.output)
  else st

/-- Embedding of one iteration of the token loop of parse_unet_blocks
(src/core/unet.py lines 152-164), with Python's evaluation order: block[0]
(IndexError on an empty token), the match statement, int(indices[0])
(ValueError), the cur_blocks lookup (NameError when no case ever matched,
IndexError when out of range), int(indices[1]) (ValueError), and finally the
assert on the sub index. Returns the updated (layer, cur_blocks) binding and
the emitted (layer, number, index) triple. -/
def parseToken (g : Groups) (st : Option (String × List (Int × Nat)))
    (tok : List Char) :
    Except PyErr ((String × List (Int × Nat)) × (String × Int × Option Int)) :=
  match tok with
  | [] => .error .indexError
  | c :: rest =>
    let st2 := selectGroup g c st
    let fields := splitOnChar '.' rest
    match pyInt? fields.headI with
    | none => .error .valueError
    | some i0 =>
      match st2 with
      | none => .error .nameError
      | some (layer, cur) =>
        match pyGet? cur i0 with
        | none => .error .indexError
        | some (number, count) =>
          if 2 ≤ fields.length then
            match pyInt? (fields.getD 1 []) with
            | none => .error .valueError
            | some i1 =>
              if 0 ≤ i1 ∧ i1 < (count : Int) then
                .ok ((layer, cur), (layer, number, some i1))
              else .error .assertionError
          else .ok ((layer, cur), (layer, number, none))

/-- Token loop of parse_unet_blocks: threads the (layer, cur_blocks) binding
left by the previous iteration, accumulates the emitted triples, and aborts
on the first error. Also returns the final binding so that an initial segment
of a run can be composed with its continuation. -/
def parseTokens (g : Groups) :
    Option (String × List (Int × Nat)) → List (List Char) →
    Except PyErr (Option (String × List (Int × Nat)) × List (String × Int × Option Int))
  | st, [] => .ok (st, [])
  | st, t :: ts =>
    match parseToken g st t with
    | .error e => .error e
    | .ok (st2, out) =>
      match parseTokens g (some st2) ts with
      | .error e => .error e
      | .ok (stF, outs) => .ok (stF, out :: outs)

/-- Embedding of parse_unet_blocks (src/core/unet.py lines 118-166) given the
already-grouped self-attention block lists: split the selector string on
commas, strip each token, and run the token loop starting with no
(layer, cur_blocks) binding. -/
def parse_unet_blocks (g : Groups) (s : List Char) :
    Except PyErr (List (String × Int × Option Int)) :=
  match parseTokens g none ((splitOnChar ',' s).map pyStrip) with
  | .error e => .error e
  | .ok (_, outs) => .ok outs

/-- Embedding of pag_perturbed_attention (src/core/unet.py lines 9-13): the
identity-attention override returns the value tensor unchanged for arbitrary
argument types and shapes. -/
def pag_perturbed_attention {A B C D E : Type} (q : A) (k : B) (v : C)
    (extra_options : D) (mask : E) : C :=
  v

/-- A 3-axis tensor: shape metadata plus row-major flat storage, the layout
torch materialises after permute(0, 2, 1).reshape(...). -/
structure Tensor3 : Type where
  n0 : Nat
  n1 : Nat
  n2 : Nat
  data : Nat → ℚ

/-- Flat-storage semantics of x.permute(0, 2, 1) followed by the contiguous
materialisation that torch's reshape performs on the permuted view: the input
has inner dims (d1, d2), the output has inner dims (d2, d1), and output flat
index b*(d2*d1) + x*d1 + y reads input flat index b*(d1*d2) + y*d2 + x. -/
def perm021data (d1 d2 : Nat) (f : Nat → ℚ) : Nat → ℚ := fun n =>
  f (n / (d2 * d1) * (d1 * d2) + n % (d2 * d1) % d1 * d2 + n % (d2 * d1) / d1)

/-- Flat-storage semantics of q[:] = q.mean(dim=(-2,-1), keepdim=True) on a
tensor whose two trailing spatial axes have hw elements in total: every entry
of a spatial block of size hw is replaced by the mean of that block. -/
def meanFill (hw : Nat) (f : Nat → ℚ) : Nat → ℚ := fun n =>
  (∑ p in Finset.range hw, f (n / hw * hw + p)) / (hw : ℚ)

/-- Structural integer square root: largest k below the fuel bound with
k * k ≤ n. With fuel n this is the floor of the square root. -/
def natSqrtAux (n : Nat) : Nat → Nat
  | 0 => 0
  | k + 1 => if (k + 1) * (k + 1) ≤ n then k + 1 else natSqrtAux n k

/-- Floor of the square root of a natural number (structurally recursive so
that concrete instances reduce in the kernel). -/
def natSqrt (n : Nat) : Nat := natSqrtAux n n

/-- Model of Python round(x ** 0.5) for a nonnegative rational x, idealising
float arithmetic as exact real arithmetic: the floor of 2*sqrt(x) is
natSqrt(floor(4x)), and Python's banker rounding sends an exact tie
sqrt(x) = k + 1/2 (that is, 4x an odd perfect square) to the even neighbour. -/
def roundSqrt (x : ℚ) : Nat :=
  let t := natSqrt ((4 * x).num.toNat / (4 * x).den)
  if (4 * x).den = 1 ∧ (4 * x).num = (t : Int) ^ 2 ∧ t % 2 = 1 then
    if t / 2 % 2 = 0 then t / 2 else t / 2 + 1
  else (t + 1) / 2

/-- Failures of the blurred attention wrapper, named after the Python
exception the corresponding line raises. -/
inductive SegErr : Type
  | reshapeError
  | zeroDivisionError
  | missingOption
  deriving DecidableEq, Repr

/-- Embedding of the spatial reshape of seg_perturbed_attention
(src/core/unet.py lines 39-44): for aspect_ratio >= 1.0 the height is
round(sqrt(area / aspect_ratio)) and the width is inferred by torch's -1
reshape, which fails (RuntimeError) when the known dimensions are zero or do
not divide the element count; for aspect_ratio < 1.0 the roles are swapped.
Returns (height, width). -/
def segShape (bs dim area : Nat) (aspect : ℚ) : Except SegErr (Nat × Nat) :=
  if 1 ≤ aspect then
    if bs * dim * roundSqrt ((area : ℚ) / aspect) = 0 then .error .reshapeError
    else if (bs * area * dim) % (bs * dim * roundSqrt ((area : ℚ) / aspect)) ≠ 0 then
      .error .reshapeError
    else
      .ok (roundSqrt ((area : ℚ) / aspect),
        bs * area * dim / (bs * dim * roundSqrt ((area : ℚ) / aspect)))
  else
    if bs * dim * roundSqrt ((area : ℚ) * aspect) = 0 then .error .reshapeError
    else if (bs * area * dim) % (bs * dim * roundSqrt ((area : ℚ) * aspect)) ≠ 0 then
      .error .reshapeError
    else
      .ok (bs * area * dim / (bs * dim * roundSqrt ((area : ℚ) * aspect)),
        roundSqrt ((area : ℚ) * aspect))

/-- Kernel size before capping (src/core/unet.py lines 48-50): the ceiling of
6 * blur_sigma, incremented by one if even. -/
def kernelSizeRaw (sigma : ℚ) : Int :=
  let c := ⌈6 * sigma⌉
  if c % 2 = 0 then c + 1 else c

/-- Kernel size after capping at 2 * min(height, width) - 1
(src/core/unet.py lines 52-56). -/
def cappedKernel (sigma : ℚ) (h w : Nat) : Int :=
  min (kernelSizeRaw sigma) (2 * (min h w : Int) - 1)

/-- Kernel-size formula of seg_attention_wrapper_old (src/core/unet.py
line 107): ceil(6 * blur_sigma) + 1 - ceil(6 * blur_sigma) % 2. -/
def oldKernelSize (sigma : ℚ) : Int :=
  ⌈6 * sigma⌉ + 1 - ⌈6 * sigma⌉ % 2

/-- The two extra_options keys the wrapper reads: n_heads and original_shape
(a shape sequence whose elements 2 and 3 are the original height and width). -/
structure ExtraOptions : Type where
  n_heads : Nat
  original_shape : List Nat

/-- Perturbation pipeline of seg_perturbed_attention on the query tensor for
already-computed spatial dims (h, w): permute and reshape to spatial form
(lines 39-44), then either blur (blur_sigma >= 0, kernel at least 3), leave
unchanged (capped kernel below 3), or mean-collapse (blur_sigma < 0), then
reshape and permute back (lines 73-74). The Gaussian blur primitive is
external to the repository and is passed in as blurFn. -/
def segPerturbQ (blurFn : Int → ℚ → String → (Nat → ℚ) → (Nat → ℚ))
    (sigma : ℚ) (border : String) (q : Tensor3) (h w : Nat) : Tensor3 :=
  let f1 := perm021data q.n1 q.n2 q.data
  let f2 :=
    if 0 ≤ sigma then
      if 3 ≤ cappedKernel sigma h w then blurFn (cappedKernel sigma h w) sigma border f1
      else f1
    else meanFill (h * w) f1
  ⟨q.n0, h * w, q.n2, perm021data q.n2 (h * w) f2⟩

/-- Embedding of the wrapper function returned by seg_attention_wrapper
(src/core/unet.py lines 30-77): read n_heads and the original shape, derive
the aspect ratio (ZeroDivisionError on a zero original height), compute the
spatial reshape, perturb q, and delegate to the wrapped attention function
with k and v untouched. -/
def seg_perturbed_attention {K V R : Type}
    (attention : Tensor3 → K → V → Nat → R)
    (blurFn : Int → ℚ → String → (Nat → ℚ) → (Nat → ℚ))
    (sigma : ℚ) (border : String)
    (q : Tensor3) (k : K) (v : V) (extra : ExtraOptions) : Except SegErr R :=
  match extra.original_shape.get? 2, extra.original_shape.get? 3 with
  | some hOrig, some wOrig =>
    if hOrig = 0 then .error .zeroDivisionError
    else
      match segShape q.n0 q.n2 q.n1 ((wOrig : ℚ) / (hOrig : ℚ)) with
      | .error e => .error e
      | .ok (h, w) =>
        .ok (attention (segPerturbQ blurFn sigma border q h w) k v extra.n_heads)
  | _, _ => .error .missingOption

/-- The tensor the wrapper delegates in mean-collapse mode (blur_sigma < 0):
permute to spatial form, fill every spatial block with its mean, permute
back. -/
def segMeanTensor (q : Tensor3) (h w : Nat) : Tensor3 :=
  ⟨q.n0, h * w, q.n2, perm021data q.n2 (h * w) (meanFill (h * w) (perm021data q.n1 q.n2 q.data))⟩

example : splitOnChar ',' [] = [[]] := rfl
example : splitOnChar ',' ['a', ',', 'b'] = [['a'], ['b']] := rfl
example : pyInt? ['1'] = some 1 := rfl
example : pyInt? ['-', '3'] = some (-3) := rfl
example : pyInt? [] = none := rfl
example : pyGet? [(0 : Int), 5] (-1) = some 5 := rfl
example :
    parse_unet_blocks ⟨[(1, 2)], [], []⟩ ['d', '0'] = .ok [("input", 1, none)] := rfl
example :
    parse_unet_blocks ⟨[], [(0, 1), (1, 4)], []⟩ ['m', '1', '.', '5'] =
      .error .assertionError := rfl
example :
    parse_unet_blocks ⟨[(1, 2)], [], []⟩ ['x', '0'] = .error .nameError := rfl
example :
    parse_unet_blocks ⟨[(1, 2)], [], []⟩ ['d', '0', ',', 'x', '0'] =
      .ok [("input", 1, none), ("input", 1, none)] := rfl
example : groupBlocks [0, 0, 1, 1, 1, 0] = [(0, 2), (1, 3), (0, 1)] := rfl
example : natSqrt 32 = 5 := rfl

/-- Evaluation rule for roundSqrt when 4x is (the cast of) a natural number:
everything reduces to natural-number arithmetic. -/
theorem roundSqrt_cast (m : Nat) (x : ℚ) (hx : 4 * x = (m : ℚ)) :
    roundSqrt x =
      if m = natSqrt m ^ 2 ∧ natSqrt m % 2 = 1 then
        if natSqrt m / 2 % 2 = 0 then natSqrt m / 2 else natSqrt m / 2 + 1
      else (natSqrt m + 1) / 2 := by
  unfold roundSqrt
  rw [hx]
  simp only [Rat.num_natCast, Rat.den_natCast, Int.toNat_natCast, Nat.div_one, true_and]
  congr 1
  have : ((m : Int) = (natSqrt m : Int) ^ 2) = (m = natSqrt m ^ 2) :=
    propext ⟨fun h => by exact_mod_cast h, fun h => by exact_mod_cast h⟩
  rw [this]

example : roundSqrt ((8 : ℚ) / 1) = 3 := by
  rw [roundSqrt_cast 32 _ (by norm_num)]; decide
example : roundSqrt ((8 : ℚ) / 2) = 2 := by
  rw [roundSqrt_cast 16 _ (by norm_num)]; decide
example : roundSqrt ((25 : ℚ) / 4) = 2 := by
  rw [roundSqrt_cast 25 _ (by norm_num)]; decide
example : segShape 1 1 8 2 = .ok (2, 4) := by
  unfold segShape
  rw [if_pos (by norm_num : 1 ≤ (2 : ℚ))]
  rw [roundSqrt_cast 16 (((8 : Nat) : ℚ) / 2) (by push_cast; norm_num)]
  rfl
example : segShape 1 1 8 1 = .error .reshapeError := by
  unfold segShape
  rw [if_pos (by norm_num : 1 ≤ (1 : ℚ))]
  rw [roundSqrt_cast 32 (((8 : Nat) : ℚ) / 1) (by push_cast; norm_num)]
  rfl
example : cappedKernel 0 1 1 = 1 := by
  unfold cappedKernel kernelSizeRaw
  norm_num
example : cappedKernel 1 5 5 = 7 := by
  unfold cappedKernel kernelSizeRaw
  norm_num
example : oldKernelSize 0 = 1 := by
  unfold oldKernelSize
  norm_num

/-- Quotient of an encoded pair: dividing b * M + s by M recovers b when
s < M. -/
theorem enc_div (b s M : Nat) (h : s < M) : (b * M + s) / M = b := by
  have hM : 0 < M := lt_of_le_of_lt (Nat.zero_le s) h
  rw [Nat.add_comm, Nat.add_mul_div_right _ _ hM, Nat.div_eq_of_lt h, Nat.zero_add]

/-- Remainder of an encoded pair: b * M + s mod M recovers s when s < M. -/
theorem enc_mod (b s M : Nat) (h : s < M) : (b * M + s) % M = s := by
  rw [Nat.add_comm, Nat.add_mul_mod_self_right, Nat.mod_eq_of_lt h]

/-- Pointwise action of the materialised permute(0, 2, 1): the output entry
at logical position (b, y, x) of the (d0, d2, d1)-shaped result is the input
entry at logical position (b, x, y). -/
theorem perm021_apply (d1 d2 : Nat) (f : Nat → ℚ) (b x y : Nat)
    (hx : x < d1) (hy : y < d2) :
    perm021data d1 d2 f (b * (d2 * d1) + y * d1 + x) =
      f (b * (d1 * d2) + x * d2 + y) := by
  unfold perm021data
  have hs : y * d1 + x < d2 * d1 := by
    calc y * d1 + x < y * d1 + d1 := by omega
      _ = (y + 1) * d1 := by ring
      _ ≤ d2 * d1 := Nat.mul_le_mul_right _ (by omega)
  have hidx : b * (d2 * d1) + y * d1 + x = b * (d2 * d1) + (y * d1 + x) :=
    Nat.add_assoc _ _ _
  rw [hidx, enc_div _ _ _ hs, enc_mod _ _ _ hs, enc_mod _ _ _ hx, enc_div _ _ _ hx]

/-- Applying the materialised permute(0, 2, 1) twice with swapped inner dims
is the identity: this is the reshape round trip of the wrapper when the
perturbation step leaves the data untouched. -/
theorem perm021_perm021 (A D : Nat) (hA : 0 < A) (hD : 0 < D) (f : Nat → ℚ) :
    perm021data D A (perm021data A D f) = f := by
  funext m
  have hAD : 0 < A * D := Nat.mul_pos hA hD
  have hx : m % (A * D) / D < A := by
    rw [Nat.div_lt_iff_lt_mul hD]
    exact Nat.mod_lt _ hAD
  have hy : m % (A * D) % D < D := Nat.mod_lt _ hD
  have hm : m = m / (A * D) * (A * D) + m % (A * D) / D * D + m % (A * D) % D := by
    rw [Nat.add_assoc, Nat.div_add_mod', Nat.div_add_mod']
  calc perm021data D A (perm021data A D f) m
      = perm021data D A (perm021data A D f)
          (m / (A * D) * (A * D) + m % (A * D) / D * D + m % (A * D) % D) := by
        rw [← hm]
    _ = perm021data A D f
          (m / (A * D) * (D * A) + m % (A * D) % D * A + m % (A * D) / D) :=
        perm021_apply D A _ _ _ _ hy hx
    _ = f (m / (A * D) * (A * D) + m % (A * D) / D * D + m % (A * D) % D) :=
        perm021_apply A D f _ _ _ hx hy
    _ = f m := by rw [← hm]

/-- dropWhile is the identity when no element satisfies the predicate. -/
theorem dropWhile_eq_self_of_none (p : Char → Bool) (l : List Char)
    (h : ∀ ch ∈ l, p ch = false) : l.dropWhile p = l := by
  cases l with
  | nil => rfl
  | cons x xs =>
    rw [List.dropWhile_cons, if_neg]
    simp [h x (List.mem_cons_self x xs)]

/-- Stripping a token that contains no whitespace is the identity. -/
theorem pyStrip_eq_self (l : List Char) (h : ∀ ch ∈ l, pyIsSpace ch = false) :
    pyStrip l = l := by
  unfold pyStrip
  rw [dropWhile_eq_self_of_none _ _ h,
    dropWhile_eq_self_of_none _ _ (fun ch hch => h ch (List.mem_reverse.mp hch)),
    List.reverse_reverse]

/-- splitOnChar always produces at least one field, like Python str.split. -/
theorem splitOnChar_ne_nil (c : Char) (l : List Char) : splitOnChar c l ≠ [] := by
  induction l with
  | nil => simp [splitOnChar]
  | cons x xs ih =>
    rw [splitOnChar]
    split_ifs
    · simp
    · cases h : splitOnChar c xs <;> simp

/-- splitOnChar on a separator-free list yields that single field. -/
theorem splitOnChar_not_mem (c : Char) (l : List Char) (h : c ∉ l) :
    splitOnChar c l = [l] := by
  induction l with
  | nil => rfl
  | cons x xs ih =>
    rw [splitOnChar, if_neg (fun hx => h (by rw [← hx]; exact List.mem_cons_self x xs)),
      ih (fun hx => h (List.mem_cons_of_mem x hx))]

/-- Unfolding rule of splitOnChar at a separator head. -/
theorem splitOnChar_cons_eq (c : Char) (xs : List Char) :
    splitOnChar c (c :: xs) = [] :: splitOnChar c xs := by
  rw [splitOnChar, if_pos rfl]

/-- Unfolding rule of splitOnChar at a non-separator head. -/
theorem splitOnChar_cons_ne (c x : Char) (xs : List Char) (h : x ≠ c) :
    splitOnChar c (x :: xs) =
      (x :: (splitOnChar c xs).headI) :: (splitOnChar c xs).tail := by
  rw [splitOnChar, if_neg h]
  rcases hs : splitOnChar c xs with _ | ⟨t, ts⟩
  · exact absurd hs (splitOnChar_ne_nil c xs)
  · simp

/-- The token loop distributes over list append: running the loop on a
concatenation first runs the front part, then continues from its final state. -/
theorem parseTokens_append (g : Groups) (st : Option (String × List (Int × Nat)))
    (l1 l2 : List (List Char)) :
    parseTokens g st (l1 ++ l2) =
      match parseTokens g st l1 with
      | .error e => .error e
      | .ok (st1, o1) =>
        match parseTokens g st1 l2 with
        | .error e => .error e
        | .ok (st2, o2) => .ok (st2, o1 ++ o2) := by
  induction l1 generalizing st with
  | nil =>
    rw [List.nil_append]
    cases h2 : parseTokens g st l2 with
    | error e => simp [parseTokens, h2]
    | ok r => obtain ⟨st1, o1⟩ := r; simp [parseTokens, h2]
  | cons t ts ih =>
    rw [List.cons_append]
    simp only [parseTokens]
    cases h1 : parseToken g st t with
    | error e => rfl
    | ok r =>
      obtain ⟨st2, out⟩ := r
      dsimp only
      rw [ih (some st2)]
      cases hts : parseTokens g (some st2) ts with
      | error e => rfl
      | ok r1 =>
        obtain ⟨st1, o1⟩ := r1
        dsimp only
        cases hl2 : parseTokens g st1 l2 with
        | error e => rfl
        | ok r2 => obtain ⟨stX, o2⟩ := r2; rfl

/-- Unfolding rule of groupBlocks when the tail groups to the empty list. -/
theorem groupBlocks_cons_nil (x : Int) (xs : List Int) (hg : groupBlocks xs = []) :
    groupBlocks (x :: xs) = [(x, 1)] := by
  rw [groupBlocks, hg]

/-- Unfolding rule of groupBlocks when the new head matches the first group. -/
theorem groupBlocks_cons_eq (x : Int) (xs : List Int) (n : Nat)
    (rest : List (Int × Nat)) (hg : groupBlocks xs = (x, n) :: rest) :
    groupBlocks (x :: xs) = (x, n + 1) :: rest := by
  rw [groupBlocks, hg]
  simp

/-- Unfolding rule of groupBlocks when the new head starts a fresh group. -/
theorem groupBlocks_cons_ne (x y : Int) (xs : List Int) (n : Nat)
    (rest : List (Int × Nat)) (hg : groupBlocks xs = (y, n) :: rest)
    (hxy : x ≠ y) :
    groupBlocks (x :: xs) = (x, 1) :: (y, n) :: rest := by
  rw [groupBlocks, hg]
  simp [hxy]

/-- Run-length groups flatten back to the original list. -/
theorem groupBlocks_flatten (l : List Int) :
    ((groupBlocks l).flatMap fun p => List.replicate p.2 p.1) = l := by
  induction l with
  | nil => rfl
  | cons x xs ih =>
    rcases hg : groupBlocks xs with _ | ⟨⟨y, n⟩, rest⟩
    · rw [hg, List.flatMap_nil] at ih
      rw [groupBlocks_cons_nil x xs hg, ← ih]
      rfl
    · rw [hg, List.flatMap_cons] at ih
      by_cases hxy : x = y
      · subst hxy
        rw [groupBlocks_cons_eq x xs n rest hg, List.flatMap_cons,
          List.replicate_succ, List.cons_append, ih]
      · rw [groupBlocks_cons_ne x y xs n rest hg hxy, List.flatMap_cons,
          List.flatMap_cons, ih]
        rfl

/-- roundSqrt of zero divided or multiplied by any rational is zero. -/
theorem roundSqrt_zero_div (aspect : ℚ) : roundSqrt (((0 : Nat) : ℚ) / aspect) = 0 := by
  rw [roundSqrt_cast 0 _ (by push_cast; simp)]
  decide

/-- roundSqrt of zero times any rational is zero. -/
theorem roundSqrt_zero_mul (aspect : ℚ) : roundSqrt (((0 : Nat) : ℚ) * aspect) = 0 := by
  rw [roundSqrt_cast 0 _ (by push_cast; simp)]
  decide

/-- Inversion of a successful spatial reshape: batch, channel and both
spatial dims are positive, the spatial dims multiply back to the token area,
and the area itself is positive. -/
theorem segShape_ok (bs dim area : Nat) (aspect : ℚ) (h w : Nat)
    (hok : segShape bs dim area aspect = .ok (h, w)) :
    0 < bs ∧ 0 < dim ∧ 0 < h ∧ 0 < w ∧ h * w = area ∧ 0 < area := by
  unfold segShape at hok
  by_cases ha : 1 ≤ aspect
  · rw [if_pos ha] at hok
    split_ifs at hok with c1 c2
    rw [Except.ok.injEq, Prod.mk.injEq] at hok
    obtain ⟨rfl, rfl⟩ := hok
    have c2x : bs * area * dim % (bs * dim * roundSqrt ((area : ℚ) / aspect)) = 0 :=
      not_not.mp c2
    simp only [Nat.mul_eq_zero, not_or] at c1
    obtain ⟨⟨hb, hd⟩, ht⟩ := c1
    have harea : area ≠ 0 := by
      intro h0
      subst h0
      exact ht (roundSqrt_zero_div aspect)
    have hmul : bs * area * dim = bs * dim * area := by ring
    have hbd : 0 < bs * dim := Nat.pos_of_ne_zero (Nat.mul_ne_zero hb hd)
    have hdvd : roundSqrt ((area : ℚ) / aspect) ∣ area := by
      rw [hmul, Nat.mul_mod_mul_left] at c2x
      rcases Nat.mul_eq_zero.mp c2x with hz | hz
      · exact absurd hz (Nat.pos_iff_ne_zero.mp hbd)
      · exact Nat.dvd_of_mod_eq_zero hz
    have hwdiv : bs * area * dim / (bs * dim * roundSqrt ((area : ℚ) / aspect)) =
        area / roundSqrt ((area : ℚ) / aspect) := by
      rw [hmul, Nat.mul_div_mul_left _ _ hbd]
    refine ⟨Nat.pos_of_ne_zero hb, Nat.pos_of_ne_zero hd, Nat.pos_of_ne_zero ht,
      ?_, ?_, Nat.pos_of_ne_zero harea⟩
    · rw [hwdiv]
      exact Nat.div_pos (Nat.le_of_dvd (Nat.pos_of_ne_zero harea) hdvd)
        (Nat.pos_of_ne_zero ht)
    · rw [hwdiv, Nat.mul_div_cancel' hdvd]
  · rw [if_neg ha] at hok
    split_ifs at hok with c1 c2
    rw [Except.ok.injEq, Prod.mk.injEq] at hok
    obtain ⟨rfl, rfl⟩ := hok
    have c2x : bs * area * dim % (bs * dim * roundSqrt ((area : ℚ) * aspect)) = 0 :=
      not_not.mp c2
    simp only [Nat.mul_eq_zero, not_or] at c1
    obtain ⟨⟨hb, hd⟩, ht⟩ := c1
    have harea : area ≠ 0 := by
      intro h0
      subst h0
      exact ht (roundSqrt_zero_mul aspect)
    have hmul : bs * area * dim = bs * dim * area := by ring
    have hbd : 0 < bs * dim := Nat.pos_of_ne_zero (Nat.mul_ne_zero hb hd)
    have hdvd : roundSqrt ((area : ℚ) * aspect) ∣ area := by
      rw [hmul, Nat.mul_mod_mul_left] at c2x
      rcases Nat.mul_eq_zero.mp c2x with hz | hz
      · exact absurd hz (Nat.pos_iff_ne_zero.mp hbd)
      · exact Nat.dvd_of_mod_eq_zero hz
    have hhdiv : bs * area * dim / (bs * dim * roundSqrt ((area : ℚ) * aspect)) =
        area / roundSqrt ((area : ℚ) * aspect) := by
      rw [hmul, Nat.mul_div_mul_left _ _ hbd]
    refine ⟨Nat.pos_of_ne_zero hb, Nat.pos_of_ne_zero hd, ?_,
      Nat.pos_of_ne_zero ht, ?_, Nat.pos_of_ne_zero harea⟩
    · rw [hhdiv]
      exact Nat.div_pos (Nat.le_of_dvd (Nat.pos_of_ne_zero harea) hdvd)
        (Nat.pos_of_ne_zero ht)
    · rw [hhdiv, Nat.div_mul_cancel hdvd]

/-- Every run-length group has a positive count. -/
theorem groupBlocks_pos (l : List Int) : ∀ p ∈ groupBlocks l, 0 < p.2 := by
  induction l with
  | nil => intro p hp; simp [groupBlocks] at hp
  | cons x xs ih =>
    intro p hp
    rcases hg : groupBlocks xs with _ | ⟨⟨y, n⟩, rest⟩
    · rw [groupBlocks_cons_nil x xs hg] at hp
      rcases List.mem_singleton.mp hp with rfl
      simp
    · by_cases hxy : x = y
      · subst hxy
        rw [groupBlocks_cons_eq x xs n rest hg] at hp
        rcases List.mem_cons.mp hp with h1 | h1
        · rw [h1]; simp
        · exact ih p (by rw [hg]; exact List.mem_cons_of_mem _ h1)
      · rw [groupBlocks_cons_ne x y xs n rest hg hxy] at hp
        rcases List.mem_cons.mp hp with h1 | h1
        · rw [h1]; simp
        · exact ih p (by rw [hg]; exact h1)

/-- Adjacent run-length groups always carry different values. -/
theorem groupBlocks_chain (l : List Int) :
    List.Chain' (fun a b : Int × Nat => a.1 ≠ b.1) (groupBlocks l) := by
  induction l with
  | nil => simp [groupBlocks]
  | cons x xs ih =>
    rcases hg : groupBlocks xs with _ | ⟨⟨y, n⟩, rest⟩
    · rw [groupBlocks_cons_nil x xs hg]; simp
    · rw [hg] at ih
      by_cases hxy : x = y
      · subst hxy
        rw [groupBlocks_cons_eq x xs n rest hg]
        rw [List.chain'_cons'] at ih ⊢
        exact ⟨ih.1, ih.2⟩
      · rw [groupBlocks_cons_ne x y xs n rest hg hxy, List.chain'_cons]
        exact ⟨hxy, ih⟩

/-- C9: pag_perturbed_attention (IdentityAttentionOverride) returns exactly
the value tensor v for arbitrary q, k, v, extra_options and mask of arbitrary
types and shapes, with no side effects and no error conditions. -/
theorem pag_perturbed_attention_returns_v {A B C D E : Type}
    (q : A) (k : B) (v : C) (extra_options : D) (mask : E) :
    pag_perturbed_attention q k v extra_options mask = v := rfl

/-- C4: for every blur sigma at least 0 and positive spatial height and
width, the capped kernel size of the wrapper (ceil(6 sigma), plus one if
even, capped at 2 min(h, w) - 1) is odd and never exceeds 2 min(h, w) - 1. -/
theorem cappedKernel_odd_and_bounded (sigma : ℚ) (h w : Nat)
    (hs : 0 ≤ sigma) (hh : 0 < h) (hw : 0 < w) :
    Odd (cappedKernel sigma h w) ∧
      cappedKernel sigma h w ≤ 2 * (min h w : Int) - 1 := by
  constructor
  · have hraw : Odd (kernelSizeRaw sigma) := by
      unfold kernelSizeRaw
      rcases Int.emod_two_eq ⌈6 * sigma⌉ with h0 | h1
      · rw [if_pos h0, Int.odd_iff]; omega
      · rw [if_neg (by omega), Int.odd_iff]; exact h1
    have hcap : Odd (2 * (min h w : Int) - 1) := by
      rw [Int.odd_iff]; omega
    unfold cappedKernel
    rcases min_cases (kernelSizeRaw sigma) (2 * (min h w : Int) - 1) with ⟨he, _⟩ | ⟨he, _⟩ <;>
      rw [he] <;> assumption
  · exact min_le_right _ _

/-- C4 witness: a concrete instance of the capped-kernel parity bound. -/
theorem cappedKernel_odd_and_bounded_witness :
    0 ≤ (0 : ℚ) ∧ 0 < 5 ∧
      (Odd (cappedKernel 0 5 5) ∧ cappedKernel 0 5 5 ≤ 2 * (min 5 5 : Int) - 1) :=
  ⟨by norm_num, by norm_num,
    cappedKernel_odd_and_bounded 0 5 5 (by norm_num) (by norm_num) (by norm_num)⟩

/-- C10: for every blur sigma at least 0 the kernel-size formula of
seg_attention_wrapper_old equals the pre-cap kernel size of
seg_attention_wrapper, and both are the smallest odd integer greater than or
equal to ceil(6 sigma). -/
theorem oldKernelSize_eq_kernelSizeRaw (sigma : ℚ) (hs : 0 ≤ sigma) :
    oldKernelSize sigma = kernelSizeRaw sigma ∧
    Odd (kernelSizeRaw sigma) ∧
    ⌈6 * sigma⌉ ≤ kernelSizeRaw sigma ∧
    ∀ m : Int, Odd m → ⌈6 * sigma⌉ ≤ m → kernelSizeRaw sigma ≤ m := by
  unfold oldKernelSize kernelSizeRaw
  rcases Int.emod_two_eq ⌈6 * sigma⌉ with h0 | h1
  · rw [if_pos h0]
    refine ⟨by omega, ?_, by omega, ?_⟩
    · rw [Int.odd_iff]; omega
    · intro m hm hle
      rw [Int.odd_iff] at hm
      omega
  · rw [if_neg (by omega)]
    refine ⟨by omega, ?_, by omega, ?_⟩
    · rw [Int.odd_iff]; exact h1
    · intro m hm hle
      exact hle

/-- C10 witness: the two kernel-size formulas agree at sigma = 0. -/
theorem oldKernelSize_eq_kernelSizeRaw_witness :
    0 ≤ (0 : ℚ) ∧ oldKernelSize 0 = kernelSizeRaw 0 :=
  ⟨by norm_num, (oldKernelSize_eq_kernelSizeRaw 0 (by norm_num)).1⟩

/-- C8: group_blocks walks the list in order and merges exactly the
consecutive equal values into (value, count) pairs: the groups flatten back
to the input, every count is positive, adjacent groups carry distinct
values, and in particular [0,0,1,1,1,0] encodes to [(0,2),(1,3),(0,1)]. -/
theorem groupBlocks_is_run_length_encoding :
    (∀ l : List Int,
      ((groupBlocks l).flatMap fun p => List.replicate p.2 p.1) = l ∧
      (∀ p ∈ groupBlocks l, 0 < p.2) ∧
      List.Chain' (fun a b : Int × Nat => a.1 ≠ b.1) (groupBlocks l)) ∧
    groupBlocks [0, 0, 1, 1, 1, 0] = [(0, 2), (1, 3), (0, 1)] :=
  ⟨fun l => ⟨groupBlocks_flatten l, groupBlocks_pos l, groupBlocks_chain l⟩, rfl⟩

/-- C8 witness: the run-length groups of the concrete example flatten back to
it. -/
theorem groupBlocks_is_run_length_encoding_witness :
    ((groupBlocks [0, 0, 1, 1, 1, 0]).flatMap fun p => List.replicate p.2 p.1) =
      [0, 0, 1, 1, 1, 0] :=
  (groupBlocks_is_run_length_encoding.1 [0, 0, 1, 1, 1, 0]).1

/-- C1: an invalid layer-character token aborts the parse only when it is the
first token; after a valid token, the Python match statement falls through
without rebinding layer or cur_blocks, so the invalid token is silently
parsed against the previous token's group. With input groups [(1, 2)], the
selector d0,x0 returns two addresses instead of failing, while the lone
selector x0 aborts with an unbound-variable NameError rather than a
dedicated parse error. -/
theorem parse_unet_blocks_invalid_layer_char_fallthrough :
    parse_unet_blocks ⟨[(1, 2)], [], []⟩ ['d', '0', ',', 'x', '0'] =
      .ok [("input", 1, none), ("input", 1, none)] ∧
    parse_unet_blocks ⟨[(1, 2)], [], []⟩ ['x', '0'] = .error .nameError :=
  ⟨rfl, rfl⟩

/-- C2: for every attention function, nonnegative blur sigma and well-formed
input (the spatial reshape succeeds), if the capped kernel size is below 3
the wrapper delegates q to the wrapped attention function entirely
unchanged: the permute/reshape round trip is the identity. -/
theorem seg_attention_roundtrip_identity {K V R : Type}
    (attention : Tensor3 → K → V → Nat → R)
    (blurFn : Int → ℚ → String → (Nat → ℚ) → (Nat → ℚ))
    (sigma : ℚ) (border : String) (q : Tensor3) (k : K) (v : V)
    (extra : ExtraOptions) (hOrig wOrig h w : Nat)
    (hso2 : extra.original_shape.get? 2 = some hOrig)
    (hso3 : extra.original_shape.get? 3 = some wOrig)
    (hh0 : hOrig ≠ 0)
    (hshape : segShape q.n0 q.n2 q.n1 ((wOrig : ℚ) / (hOrig : ℚ)) = .ok (h, w))
    (hs : 0 ≤ sigma)
    (hk : cappedKernel sigma h w < 3) :
    seg_perturbed_attention attention blurFn sigma border q k v extra =
      .ok (attention q k v extra.n_heads) := by
  obtain ⟨hbs, hdim, hhp, hwp, hhw, harea⟩ := segShape_ok _ _ _ _ _ _ hshape
  unfold seg_perturbed_attention
  rw [hso2, hso3]
  dsimp only
  rw [if_neg hh0, hshape]
  dsimp only
  suffices hq : segPerturbQ blurFn sigma border q h w = q by rw [hq]
  unfold segPerturbQ
  dsimp only
  rw [if_pos hs, if_neg (not_le.mpr hk)]
  obtain ⟨b, A, D, f⟩ := q
  dsimp only at hhw harea hdim ⊢
  rw [hhw, perm021_perm021 A D harea hdim f]

/-- C2 witness: with batch, area, channels and original shape all 1 and
sigma 0, the capped kernel is 1 < 3 and the wrapper passes q through
unchanged. -/
theorem seg_attention_roundtrip_identity_witness :
    ([0, 0, 1, 1].get? 2 = some 1) ∧
    segShape 1 1 1 (((1 : Nat) : ℚ) / ((1 : Nat) : ℚ)) = .ok (1, 1) ∧
    0 ≤ (0 : ℚ) ∧ cappedKernel 0 1 1 < 3 ∧
    seg_perturbed_attention (fun t (_ : Nat) (_ : Nat) n => (t, n))
        (fun _ _ _ f => f) 0 "reflect" (⟨1, 1, 1, fun _ => 0⟩ : Tensor3)
        0 0 ⟨1, [0, 0, 1, 1]⟩ =
      .ok ((⟨1, 1, 1, fun _ => 0⟩ : Tensor3), 1) := by
  have hshape : segShape 1 1 1 (((1 : Nat) : ℚ) / ((1 : Nat) : ℚ)) = .ok (1, 1) := by
    unfold segShape
    rw [if_pos (by push_cast; norm_num : (1 : ℚ) ≤ ((1 : Nat) : ℚ) / ((1 : Nat) : ℚ))]
    rw [roundSqrt_cast 4
      (((1 : Nat) : ℚ) / (((1 : Nat) : ℚ) / ((1 : Nat) : ℚ))) (by push_cast; norm_num)]
    rfl
  have hk : cappedKernel 0 1 1 < 3 := by
    unfold cappedKernel kernelSizeRaw
    norm_num
  exact ⟨rfl, hshape, by norm_num, hk,
    seg_attention_roundtrip_identity (fun t (_ : Nat) (_ : Nat) n => (t, n))
      (fun _ _ _ f => f) 0 "reflect" ⟨1, 1, 1, fun _ => 0⟩ 0 0 ⟨1, [0, 0, 1, 1]⟩
      1 1 1 1 rfl rfl (by norm_num) hshape (by norm_num) hk⟩

/-- C3: for negative blur sigma and a well-formed input, the wrapper
delegates the mean-collapsed tensor, whose entry at every token position for
a fixed (batch, channel) pair is exactly the mean of the original q over all
token positions of that pair. -/
theorem seg_attention_mean_collapse {K V R : Type}
    (attention : Tensor3 → K → V → Nat → R)
    (blurFn : Int → ℚ → String → (Nat → ℚ) → (Nat → ℚ))
    (sigma : ℚ) (border : String) (q : Tensor3) (k : K) (v : V)
    (extra : ExtraOptions) (hOrig wOrig h w : Nat)
    (hso2 : extra.original_shape.get? 2 = some hOrig)
    (hso3 : extra.original_shape.get? 3 = some wOrig)
    (hh0 : hOrig ≠ 0)
    (hshape : segShape q.n0 q.n2 q.n1 ((wOrig : ℚ) / (hOrig : ℚ)) = .ok (h, w))
    (hneg : sigma < 0) :
    seg_perturbed_attention attention blurFn sigma border q k v extra =
      .ok (attention (segMeanTensor q h w) k v extra.n_heads) ∧
    ∀ b x y, b < q.n0 → x < q.n1 → y < q.n2 →
      (segMeanTensor q h w).data (b * (q.n1 * q.n2) + x * q.n2 + y) =
        (∑ p in Finset.range q.n1, q.data (b * (q.n1 * q.n2) + p * q.n2 + y)) /
          (q.n1 : ℚ) := by
  obtain ⟨hbs, hdim, hhp, hwp, hhw, harea⟩ := segShape_ok _ _ _ _ _ _ hshape
  constructor
  · unfold seg_perturbed_attention
    rw [hso2, hso3]
    dsimp only
    rw [if_neg hh0, hshape]
    dsimp only
    suffices hq : segPerturbQ blurFn sigma border q h w = segMeanTensor q h w by rw [hq]
    unfold segPerturbQ segMeanTensor
    dsimp only
    rw [if_neg (not_le.mpr hneg)]
  · intro b x y hb hx hy
    show perm021data q.n2 (h * w)
        (meanFill (h * w) (perm021data q.n1 q.n2 q.data))
        (b * (q.n1 * q.n2) + x * q.n2 + y) = _
    rw [hhw]
    rw [perm021_apply q.n2 q.n1 _ b y x hy hx]
    unfold meanFill
    have hidx : b * (q.n2 * q.n1) + y * q.n1 + x = (b * q.n2 + y) * q.n1 + x := by
      ring
    rw [hidx, enc_div _ _ _ hx]
    congr 1
    refine Finset.sum_congr rfl (fun p hp => ?_)
    have hp2 : p < q.n1 := Finset.mem_range.mp hp
    rw [show (b * q.n2 + y) * q.n1 + p = b * (q.n2 * q.n1) + y * q.n1 + p from by ring,
      perm021_apply q.n1 q.n2 q.data b p y hp2 hy]

/-- C3 witness: mean collapse at a concrete one-element tensor with constant
value 3: the delegated tensor holds the mean 3 at its only position. -/
theorem seg_attention_mean_collapse_witness :
    ([0, 0, 1, 1].get? 3 = some 1) ∧
    segShape 1 1 1 (((1 : Nat) : ℚ) / ((1 : Nat) : ℚ)) = .ok (1, 1) ∧
    (-1 : ℚ) < 0 ∧
    (seg_perturbed_attention (fun t (_ : Nat) (_ : Nat) n => (t, n))
        (fun _ _ _ f => f) (-1) "reflect" (⟨1, 1, 1, fun _ => 3⟩ : Tensor3)
        0 0 ⟨1, [0, 0, 1, 1]⟩ =
      .ok ((segMeanTensor (⟨1, 1, 1, fun _ => 3⟩ : Tensor3) 1 1), 1) ∧
    ∀ b x y, b < 1 → x < 1 → y < 1 →
      (segMeanTensor (⟨1, 1, 1, fun _ => 3⟩ : Tensor3) 1 1).data
          (b * (1 * 1) + x * 1 + y) =
        (∑ p in Finset.range 1,
          (fun _ => (3 : ℚ)) (b * (1 * 1) + p * 1 + y)) / ((1 : Nat) : ℚ)) := by
  have hshape : segShape 1 1 1 (((1 : Nat) : ℚ) / ((1 : Nat) : ℚ)) = .ok (1, 1) := by
    unfold segShape
    rw [if_pos (by push_cast; norm_num : (1 : ℚ) ≤ ((1 : Nat) : ℚ) / ((1 : Nat) : ℚ))]
    rw [roundSqrt_cast 4
      (((1 : Nat) : ℚ) / (((1 : Nat) : ℚ) / ((1 : Nat) : ℚ))) (by push_cast; norm_num)]
    rfl
  exact ⟨rfl, hshape, by norm_num,
    seg_attention_mean_collapse (fun t (_ : Nat) (_ : Nat) n => (t, n))
      (fun _ _ _ f => f) (-1) "reflect" ⟨1, 1, 1, fun _ => 3⟩ 0 0 ⟨1, [0, 0, 1, 1]⟩
      1 1 1 1 rfl rfl (by norm_num) hshape (by norm_num)⟩

/-- C5 counterexample: with aspect ratio 1 and area 8 the computed height is
round(sqrt(8)) = 3, which does not divide 8, and the wrapper fails with a
reshape error instead of absorbing the remainder into the width dimension:
the reshape does not succeed for every area and computed height. -/
theorem seg_attention_reshape_fails_area8_aspect1 :
    seg_perturbed_attention (fun (_ : Tensor3) (_ : Nat) (_ : Nat) (_ : Nat) => (0 : Nat))
        (fun _ _ _ f => f) 0 "reflect" (⟨1, 8, 1, fun _ => 0⟩ : Tensor3)
        0 0 ⟨1, [0, 0, 1, 1]⟩ = .error .reshapeError := by
  have hseg : segShape 1 1 8 (((1 : Nat) : ℚ) / ((1 : Nat) : ℚ)) =
      .error .reshapeError := by
    unfold segShape
    rw [if_pos (by push_cast; norm_num : (1 : ℚ) ≤ ((1 : Nat) : ℚ) / ((1 : Nat) : ℚ))]
    rw [roundSqrt_cast 32
      (((8 : Nat) : ℚ) / (((1 : Nat) : ℚ) / ((1 : Nat) : ℚ))) (by push_cast; norm_num)]
    rfl
  unfold seg_perturbed_attention
  dsimp only [List.get?]
  rw [if_neg (by decide : ¬(1 = 0)), hseg]

/-- C5 amended: for aspect ratio at least 1 the height is
round(sqrt(area / aspect)) and the reshape succeeds exactly when that height
is positive and divides the area, in which case the width is area / height
with no remainder absorption; otherwise the reshape fails. Analogously with
the roles swapped for aspect ratio below 1. The concrete example aspect 2,
area 8 gives height 2 and width 4. -/
theorem segShape_reshape_characterisation (bs dim area : Nat) (aspect : ℚ)
    (hbs : 0 < bs) (hdim : 0 < dim) :
    (1 ≤ aspect →
      (roundSqrt ((area : ℚ) / aspect) ≠ 0 ∧
          area % roundSqrt ((area : ℚ) / aspect) = 0 →
        segShape bs dim area aspect =
          .ok (roundSqrt ((area : ℚ) / aspect),
            area / roundSqrt ((area : ℚ) / aspect))) ∧
      (roundSqrt ((area : ℚ) / aspect) = 0 ∨
          area % roundSqrt ((area : ℚ) / aspect) ≠ 0 →
        segShape bs dim area aspect = .error .reshapeError)) ∧
    (¬ 1 ≤ aspect →
      (roundSqrt ((area : ℚ) * aspect) ≠ 0 ∧
          area % roundSqrt ((area : ℚ) * aspect) = 0 →
        segShape bs dim area aspect =
          .ok (area / roundSqrt ((area : ℚ) * aspect),
            roundSqrt ((area : ℚ) * aspect))) ∧
      (roundSqrt ((area : ℚ) * aspect) = 0 ∨
          area % roundSqrt ((area : ℚ) * aspect) ≠ 0 →
        segShape bs dim area aspect = .error .reshapeError)) ∧
    segShape 1 1 8 2 = .ok (2, 4) := by
  have hb0 : bs ≠ 0 := Nat.pos_iff_ne_zero.mp hbs
  have hd0 : dim ≠ 0 := Nat.pos_iff_ne_zero.mp hdim
  have hbd : 0 < bs * dim := Nat.pos_of_ne_zero (Nat.mul_ne_zero hb0 hd0)
  have hmul : bs * area * dim = bs * dim * area := by ring
  refine ⟨?_, ?_, ?_⟩
  · intro ha
    constructor
    · rintro ⟨ht, hmod⟩
      have hz : bs * area * dim % (bs * dim * roundSqrt ((area : ℚ) / aspect)) = 0 := by
        rw [hmul, Nat.mul_mod_mul_left, hmod, Nat.mul_zero]
      unfold segShape
      rw [if_pos ha,
        if_neg (Nat.mul_ne_zero (Nat.mul_ne_zero hb0 hd0) ht),
        if_neg (not_not_intro hz), Except.ok.injEq, Prod.mk.injEq]
      exact ⟨rfl, by rw [hmul, Nat.mul_div_mul_left _ _ hbd]⟩
    · intro hcase
      unfold segShape
      rw [if_pos ha]
      by_cases ht0 : bs * dim * roundSqrt ((area : ℚ) / aspect) = 0
      · rw [if_pos ht0]
      · rcases hcase with ht | hmod
        · exact absurd (by rw [ht, Nat.mul_zero]) ht0
        · rw [if_neg ht0, if_pos (by
            rw [hmul, Nat.mul_mod_mul_left]
            exact Nat.mul_ne_zero (Nat.pos_iff_ne_zero.mp hbd) hmod)]
  · intro ha
    constructor
    · rintro ⟨ht, hmod⟩
      have hz : bs * area * dim % (bs * dim * roundSqrt ((area : ℚ) * aspect)) = 0 := by
        rw [hmul, Nat.mul_mod_mul_left, hmod, Nat.mul_zero]
      unfold segShape
      rw [if_neg ha,
        if_neg (Nat.mul_ne_zero (Nat.mul_ne_zero hb0 hd0) ht),
        if_neg (not_not_intro hz), Except.ok.injEq, Prod.mk.injEq]
      exact ⟨by rw [hmul, Nat.mul_div_mul_left _ _ hbd], rfl⟩
    · intro hcase
      unfold segShape
      rw [if_neg ha]
      by_cases ht0 : bs * dim * roundSqrt ((area : ℚ) * aspect) = 0
      · rw [if_pos ht0]
      · rcases hcase with ht | hmod
        · exact absurd (by rw [ht, Nat.mul_zero]) ht0
        · rw [if_neg ht0, if_pos (by
            rw [hmul, Nat.mul_mod_mul_left]
            exact Nat.mul_ne_zero (Nat.pos_iff_ne_zero.mp hbd) hmod)]
  · unfold segShape
    rw [if_pos (by norm_num : 1 ≤ (2 : ℚ))]
    rw [roundSqrt_cast 16 (((8 : Nat) : ℚ) / 2) (by push_cast; norm_num)]
    rfl

/-- C5 witness: the characterisation instantiated at the spec's concrete
example, aspect ratio 2 and area 8. -/
theorem segShape_reshape_characterisation_witness :
    0 < 1 ∧ segShape 1 1 8 2 = .ok (2, 4) :=
  ⟨by decide, (segShape_reshape_characterisation 1 1 8 2 (by decide) (by decide)).2.2⟩

/-- C6: whenever the selector string splits into tokens whose earlier tokens
parse successfully and whose next token addresses a run-length group (value, count)
with an explicit sub index outside [0, count), the whole call to
parse_unet_blocks aborts with the assertion error and yields no address
list. -/
theorem parse_unet_blocks_subindex_bound (g : Groups) (s : List Char)
    (pre post : List (List Char)) (tok : List Char)
    (st : Option (String × List (Int × Nat)))
    (outs : List (String × Int × Option Int))
    (c : Char) (rest : List Char) (layer : String) (cur : List (Int × Nat))
    (i0 i1 number : Int) (count : Nat)
    (hsplit : (splitOnChar ',' s).map pyStrip = pre ++ tok :: post)
    (hpre : parseTokens g none pre = .ok (st, outs))
    (htok : tok = c :: rest)
    (hsel : selectGroup g c st = some (layer, cur))
    (hi0 : pyInt? (splitOnChar '.' rest).headI = some i0)
    (hget : pyGet? cur i0 = some (number, count))
    (hlen : 2 ≤ (splitOnChar '.' rest).length)
    (hi1 : pyInt? ((splitOnChar '.' rest).getD 1 []) = some i1)
    (hbad : ¬(0 ≤ i1 ∧ i1 < (count : Int))) :
    parse_unet_blocks g s = .error .assertionError := by
  have hstep : parseToken g st tok = .error .assertionError := by
    subst htok
    unfold parseToken
    dsimp only
    rw [hi0]
    dsimp only
    rw [hsel]
    dsimp only
    rw [hget]
    dsimp only
    rw [if_pos hlen, hi1]
    dsimp only
    rw [if_neg hbad]
  have hloop : parseTokens g st (tok :: post) = .error .assertionError := by
    unfold parseTokens
    rw [hstep]
  unfold parse_unet_blocks
  rw [hsplit, parseTokens_append g none pre (tok :: post), hpre]
  dsimp only
  rw [hloop]

/-- C6 witness: the selector m1.5 against middle groups [(0,1),(1,4)] fails
the assertion because 5 is not in [0, 4). -/
theorem parse_unet_blocks_subindex_bound_witness :
    ((splitOnChar ',' ['m', '1', '.', '5']).map pyStrip =
      [] ++ ['m', '1', '.', '5'] :: []) ∧
    ¬(0 ≤ (5 : Int) ∧ (5 : Int) < ((4 : Nat) : Int)) ∧
    parse_unet_blocks ⟨[], [(0, 1), (1, 4)], []⟩ ['m', '1', '.', '5'] =
      .error .assertionError := by
  refine ⟨rfl, by decide, ?_⟩
  exact parse_unet_blocks_subindex_bound ⟨[], [(0, 1), (1, 4)], []⟩
    ['m', '1', '.', '5'] [] [] ['m', '1', '.', '5'] none [] 'm' ['1', '.', '5']
    "middle" [(0, 1), (1, 4)] 1 5 1 4 rfl rfl rfl rfl rfl rfl (by decide) rfl
    (by decide)

/-- C7 counterexample: the token d1.2.3 has three dot-separated integer
fields, which the spec's grammar rejects, yet parse_unet_blocks accepts it,
silently ignoring the third field and parsing it like d1.2. -/
theorem parse_unet_blocks_accepts_three_fields :
    parse_unet_blocks ⟨[(7, 5), (9, 4)], [], []⟩ ['d', '1', '.', '2', '.', '3'] =
      .ok [("input", 9, some 2)] := rfl

/-- C7 amended: a token consisting of a valid layer character, a first
integer field, a second integer field within the addressed run bound, and
arbitrary further dot-separated content is accepted, with everything after
the second field ignored rather than rejected. -/
theorem parse_unet_blocks_ignores_extra_fields (g : Groups) (junk : List Char)
    (v : Int) (cnt : Nat)
    (hnc : ',' ∉ junk)
    (hns : ∀ ch ∈ junk, pyIsSpace ch = false)
    (hget : pyGet? g.input 1 = some (v, cnt))
    (hcnt : 2 < cnt) :
    parse_unet_blocks g ('d' :: '1' :: '.' :: '2' :: '.' :: junk) =
      .ok [("input", v, some 2)] := by
  have hnc2 : ',' ∉ ('d' :: '1' :: '.' :: '2' :: '.' :: junk) := by
    simp only [List.mem_cons, not_or]
    exact ⟨by decide, by decide, by decide, by decide, by decide, hnc⟩
  have hns2 : ∀ ch ∈ ('d' :: '1' :: '.' :: '2' :: '.' :: junk), pyIsSpace ch = false := by
    intro ch hch
    simp only [List.mem_cons] at hch
    rcases hch with rfl | rfl | rfl | rfl | rfl | hj
    · rfl
    · rfl
    · rfl
    · rfl
    · rfl
    · exact hns ch hj
  have e3 : splitOnChar '.' ('.' :: junk) = [] :: splitOnChar '.' junk :=
    splitOnChar_cons_eq '.' junk
  have e2 : splitOnChar '.' ('2' :: '.' :: junk) = ['2'] :: splitOnChar '.' junk := by
    rw [splitOnChar_cons_ne '.' '2' ('.' :: junk) (by decide), e3]
    rfl
  have e1 : splitOnChar '.' ('.' :: '2' :: '.' :: junk) =
      [] :: ['2'] :: splitOnChar '.' junk := by
    rw [splitOnChar_cons_eq '.' ('2' :: '.' :: junk), e2]
  have e0 : splitOnChar '.' ('1' :: '.' :: '2' :: '.' :: junk) =
      ['1'] :: ['2'] :: splitOnChar '.' junk := by
    rw [splitOnChar_cons_ne '.' '1' ('.' :: '2' :: '.' :: junk) (by decide), e1]
    rfl
  have hstep : parseToken g none ('d' :: '1' :: '.' :: '2' :: '.' :: junk) =
      .ok (("input", g.input), ("input", v, some 2)) := by
    unfold parseToken
    dsimp only
    rw [e0]
    dsimp only [List.headI]
    rw [show pyInt? ['1'] = some 1 from rfl]
    dsimp only
    rw [show selectGroup g 'd' none = some ("input", g.input) from rfl]
    dsimp only
    rw [hget]
    dsimp only
    rw [if_pos (by simp only [List.length_cons]; omega :
      2 ≤ (['1'] :: ['2'] :: splitOnChar '.' junk).length)]
    rw [show (['1'] :: ['2'] :: splitOnChar '.' junk).getD 1 [] = ['2'] from rfl]
    rw [show pyInt? ['2'] = some 2 from rfl]
    dsimp only
    rw [if_pos ⟨by decide, by exact_mod_cast hcnt⟩]
  have hloop : parseTokens g none [('d' :: '1' :: '.' :: '2' :: '.' :: junk)] =
      .ok (some ("input", g.input), [("input", v, some 2)]) := by
    unfold parseTokens
    rw [hstep]
    rfl
  unfold parse_unet_blocks
  rw [splitOnChar_not_mem ',' _ hnc2]
  rw [show (([('d' :: '1' :: '.' :: '2' :: '.' :: junk)]).map pyStrip) =
      [pyStrip ('d' :: '1' :: '.' :: '2' :: '.' :: junk)] from rfl]
  rw [pyStrip_eq_self _ hns2, hloop]

/-- C7 amended witness: the three-field token d1.2.3 is accepted against
input groups [(7,5),(9,4)], yielding the address for d1.2. -/
theorem parse_unet_blocks_ignores_extra_fields_witness :
    (',' ∉ ['3']) ∧ pyGet? ([(7, 5), (9, 4)] : List (Int × Nat)) 1 = some (9, 4) ∧
    2 < 4 ∧
    parse_unet_blocks ⟨[(7, 5), (9, 4)], [], []⟩
        ('d' :: '1' :: '.' :: '2' :: '.' :: ['3']) = .ok [("input", 9, some 2)] := by
  refine ⟨by decide, rfl, by decide, ?_⟩
  exact parse_unet_blocks_ignores_extra_fields ⟨[(7, 5), (9, 4)], [], []⟩ ['3'] 9 4
    (by decide)
    (by
      intro ch hch
      rcases List.mem_singleton.mp hch with rfl
      rfl)
    rfl (by decide)
